import Mathlib

/-!
Verification of the Mamash editor's lexical-analysis and diagnostics core.

Shallow embedding of:
- `src/src/lang/tokenizer.ts` (the tokenizer imported by the lint engine;
  it pre-scans block comments with a nesting counter, merges the collected
  intervals, yields the comment tokens first and then scans the rest of the
  text while skipping the comment intervals), embedded as `Mamash.tokenize`;
- `src/unnamed/part_001` (the second tokenizer implementation found in the
  repository: a single greedy left-to-right scan, Latin letters allowed in
  identifiers), embedded as `Mamash.Greedy.tokenize`;
- `src/src/lint/engine.ts` (`lintText`), embedded as `Mamash.lintTokens` /
  `Mamash.lintText`; `Mamash.lintTextG` is the same engine applied to the
  greedy tokenizer's output;
- `src/src/lint/sourceText.ts` (`positionAt` / `offsetAt`).

Source text is modelled as `List Char`; all inputs used in concrete theorems
consist of BMP code points only, for which Lean character offsets coincide
with the UTF-16 code-unit offsets used by the JavaScript source.
Loops whose index does not advance structurally are given an explicit fuel
argument, always called with a fuel bound that is provably (and for concrete
inputs, visibly) sufficient, so every definition reduces in the kernel.
-/

namespace Mamash

/-- Token type, mirroring `Tok` of `tokenizer.ts` (one constructor per tag;
`tfrom`/`tto` are the half-open range bounds named `from`/`to` in the source). -/
inductive Tok where
  | Keyword (value : String) (tfrom tto : Nat)
  | Ident (value : String) (tfrom tto : Nat)
  | Number (value : String) (tfrom tto : Nat)
  | Op (value : String) (tfrom tto : Nat)
  | Period (tfrom tto : Nat)
  | ParenOpen (tfrom tto : Nat)
  | ParenClose (tfrom tto : Nat)
  | WS (value : String) (tfrom tto : Nat)
  | Comment (value : String) (tfrom tto : Nat)
  | Unknown (value : String) (tfrom tto : Nat)
  deriving DecidableEq, Repr

/-- Range start of a token (`tok.from` in the source). -/
def Tok.tfrom : Tok → Nat
  | .Keyword _ f _ | .Ident _ f _ | .Number _ f _ | .Op _ f _ | .Period f _
  | .ParenOpen f _ | .ParenClose f _ | .WS _ f _ | .Comment _ f _ | .Unknown _ f _ => f

/-- Range end of a token (`tok.to` in the source). -/
def Tok.tto : Tok → Nat
  | .Keyword _ _ t | .Ident _ _ t | .Number _ _ t | .Op _ _ t | .Period _ t
  | .ParenOpen _ t | .ParenClose _ t | .WS _ _ t | .Comment _ _ t | .Unknown _ _ t => t

/-- Diagnostic record of `src/src/lint/types.ts`; the engine always passes a
`code`, and always severity `"error"`. -/
structure Diagnostic where
  dfrom : Nat
  dto : Nat
  message : String
  severity : String
  code : String
  deriving DecidableEq, Repr

/-- Comment interval of `tokenizer.ts` (`type Interval`). -/
structure Interval where
  ifrom : Nat
  ito : Nat
  deriving DecidableEq, Repr

/-- JavaScript `/\s/` test, the exact ECMAScript white-space plus
line-terminator set, used by both tokenizers. -/
def isWSChar (c : Char) : Bool :=
  c == '\t' || c.toNat == 10 || c.toNat == 11 || c.toNat == 12 || c.toNat == 13 ||
  c == ' ' || c.toNat == 0xa0 || c.toNat == 0x1680 ||
  (0x2000 ≤ c.toNat && c.toNat ≤ 0x200a) ||
  c.toNat == 0x2028 || c.toNat == 0x2029 || c.toNat == 0x202f || c.toNat == 0x205f ||
  c.toNat == 0x3000 || c.toNat == 0xfeff

/-- JavaScript `/[0-9]/` test. -/
def isDigitChar (c : Char) : Bool :=
  '0' ≤ c && c ≤ '9'

/-- Identifier-start class of `tokenizer.ts` (`/[֐-׿_]/`):
Hebrew block or underscore, no Latin letters. -/
def hebrewIdStart (c : Char) : Bool :=
  (0x590 ≤ c.toNat && c.toNat ≤ 0x5FF) || c == '_'

/-- Identifier-continuation class of `tokenizer.ts` (`/[֐-׿0-9_]/`). -/
def hebrewIdPart (c : Char) : Bool :=
  (0x590 ≤ c.toNat && c.toNat ≤ 0x5FF) || isDigitChar c || c == '_'

/-- Operator characters `"+-*/=:"`. -/
def isOpChar (c : Char) : Bool :=
  c == '+' || c == '-' || c == '*' || c == '/' || c == '=' || c == ':'

/-- Fixed keyword set shared by both tokenizers. -/
def KEYWORDS : List String :=
  ["אם", "אזי", "אחרת", "לכל", "יהא", "שוה", "גדול", "קטן"]

/-- JavaScript `s.slice(a, b)` for in-range `a ≤ b` (the only way the
tokenizers use it). -/
def sliceStr (s : List Char) (a b : Nat) : String :=
  ((s.drop a).take (b - a)).asString

/-- Comment pre-scan of `tokenizer.ts` lines 38-66: walk the whole text with a
nesting counter, recording an interval whenever the counter returns to zero
(or is driven negative, in which case it is reset). `i` is the current offset,
`count`/`start` are `commentCount`/`commentStart`, and `stack` accumulates
`commentStack` in push (append) order. -/
def commentScan : Nat → List Char → Int → Nat → List Interval → List Interval
  | _, [], _, _, stack => stack
  | i, '/' :: '*' :: rest, count, start, stack =>
      let count' := count + 1
      let start' := if start = 0 ∧ count' = 1 then i else start
      commentScan (i + 2) rest count' start' stack
  | i, '*' :: '/' :: rest, count, start, stack =>
      let count' := count - 1
      if count' = 0 then
        commentScan (i + 2) rest 0 0 (stack ++ [⟨start, i + 2⟩])
      else if count' < 0 then
        commentScan (i + 2) rest 0 0 (stack ++ [⟨start, i + 2⟩])
      else
        commentScan (i + 2) rest count' start stack
  | i, _ :: rest, count, start, stack =>
      commentScan (i + 1) rest count start stack

/-- Stable insertion into a list sorted by `ifrom`; the inserted element goes
before later elements with an equal key, matching the stable
`Array.prototype.sort` with comparator `(a, b) => a.from - b.from`. -/
def insertSorted (x : Interval) : List Interval → List Interval
  | [] => [x]
  | y :: ys => if x.ifrom ≤ y.ifrom then x :: y :: ys else y :: insertSorted x ys

/-- Stable sort by `ifrom` (tokenizer.ts line 70). -/
def sortIntervals : List Interval → List Interval
  | [] => []
  | x :: xs => insertSorted x (sortIntervals xs)

/-- Merge loop of `tokenizer.ts` lines 73-84: `last` is `lastMerged`, `done`
the earlier merged intervals in order. -/
def mergeGo (last : Interval) (done : List Interval) : List Interval → List Interval
  | [] => done ++ [last]
  | cur :: rest =>
      if cur.ifrom < last.ito then
        mergeGo ⟨last.ifrom, Nat.max last.ito cur.ito⟩ done rest
      else
        mergeGo cur (done ++ [last]) rest

/-- Merge overlapping sorted intervals (tokenizer.ts lines 72-85); the source
only calls this on a non-empty stack. -/
def mergeIntervals : List Interval → List Interval
  | [] => []
  | h :: t => mergeGo h [] t

/-- Single token step of the main scan (`tokenizer.ts` lines 109-169): the
character dispatch at offset `i` with current character `ch`, returning the
produced token and the next offset. -/
def mainStep (s : List Char) (i : Nat) (ch : Char) : Tok × Nat :=
  if isWSChar ch then
    let run := (s.drop i).takeWhile isWSChar
    (Tok.WS run.asString i (i + run.length), i + run.length)
  else if ch = '.' then
    (Tok.Period i (i + 1), i + 1)
  else if ch = '(' then
    (Tok.ParenOpen i (i + 1), i + 1)
  else if ch = ')' then
    (Tok.ParenClose i (i + 1), i + 1)
  else if isOpChar ch then
    (Tok.Op (String.mk [ch]) i (i + 1), i + 1)
  else if isDigitChar ch then
    let run := (s.drop i).takeWhile isDigitChar
    (Tok.Number run.asString i (i + run.length), i + run.length)
  else if hebrewIdStart ch then
    let run := ch :: (s.drop (i + 1)).takeWhile hebrewIdPart
    let word := run.asString
    if KEYWORDS.contains word then
      (Tok.Keyword word i (i + run.length), i + run.length)
    else
      (Tok.Ident word i (i + run.length), i + run.length)
  else
    (Tok.Unknown (String.mk [ch]) i (i + 1), i + 1)

/-- Main scan of `tokenizer.ts` lines 96-170: tokenize from offset `i`,
skipping the comment intervals `ivs` (sorted, disjoint). The loop always
advances `i` or consumes an interval, so fuel `s.length + ivs.length + 1`
is sufficient; fuel is threaded explicitly to keep the recursion structural. -/
def mainScan (s : List Char) : Nat → Nat → List Interval → List Tok
  | 0, _, _ => []
  | fuel + 1, i, iv :: ivrest =>
    match s.get? i with
    | none => []
    | some ch =>
      if iv.ifrom ≤ i then mainScan s fuel iv.ito ivrest
      else (mainStep s i ch).1 :: mainScan s fuel (mainStep s i ch).2 (iv :: ivrest)
  | fuel + 1, i, [] =>
    match s.get? i with
    | none => []
    | some ch => (mainStep s i ch).1 :: mainScan s fuel (mainStep s i ch).2 []

/-- Tokenizer wired into the lint engine (`tokenize` of
`src/src/lang/tokenizer.ts`): comment pre-scan, sort and merge of the
collected intervals, the comment tokens yielded first, then the main scan
over the remaining text. -/
def tokenize (s : List Char) : List Tok :=
  let stack0 := commentScan 0 s 0 0 []
  let stack := if stack0.isEmpty then stack0 else mergeIntervals (sortIntervals stack0)
  (stack.map fun iv => Tok.Comment (sliceStr s iv.ifrom iv.ito) iv.ifrom iv.ito) ++
    mainScan s (s.length + stack.length + 1) 0 stack

namespace Greedy

/-- Identifier-start class of the greedy tokenizer
(`/[֐-׿A-Za-z_]/`, `src/unnamed/part_001`). -/
def idStart (c : Char) : Bool :=
  (0x590 ≤ c.toNat && c.toNat ≤ 0x5FF) ||
  ('A' ≤ c && c ≤ 'Z') || ('a' ≤ c && c ≤ 'z') || c == '_'

/-- Identifier-continuation class of the greedy tokenizer
(`/[֐-׿A-Za-z0-9_]/`). -/
def idPart (c : Char) : Bool :=
  idStart c || isDigitChar c

/-- Offset of the first `*/` pair inside a character list, if any; mirrors the
forward scan of `part_001` lines 40-41. -/
def starSlashIdx : List Char → Option Nat
  | '*' :: '/' :: _ => some 0
  | _ :: rest => (starSlashIdx rest).map (· + 1)
  | [] => none

/-- Greedy single-pass tokenizer (`tokenize` of `src/unnamed/part_001`),
fuel-indexed; every step consumes at least one character. -/
def tokenizeAux (s : List Char) : Nat → Nat → List Tok
  | 0, _ => []
  | fuel + 1, i =>
    match s.get? i with
    | none => []
    | some ch =>
      if ch = '/' ∧ s.get? (i + 1) = some '*' then
        match starSlashIdx (s.drop (i + 2)) with
        | some d =>
            Tok.Comment (sliceStr s i (i + d + 4)) i (i + d + 4) ::
              tokenizeAux s fuel (i + d + 4)
        | none =>
            [Tok.Comment (sliceStr s i s.length) i s.length]
      else if isWSChar ch then
        let run := (s.drop i).takeWhile isWSChar
        Tok.WS run.asString i (i + run.length) :: tokenizeAux s fuel (i + run.length)
      else if ch = '.' then
        Tok.Period i (i + 1) :: tokenizeAux s fuel (i + 1)
      else if ch = '(' then
        Tok.ParenOpen i (i + 1) :: tokenizeAux s fuel (i + 1)
      else if ch = ')' then
        Tok.ParenClose i (i + 1) :: tokenizeAux s fuel (i + 1)
      else if isOpChar ch then
        Tok.Op (String.mk [ch]) i (i + 1) :: tokenizeAux s fuel (i + 1)
      else if isDigitChar ch then
        let run := (s.drop i).takeWhile isDigitChar
        Tok.Number run.asString i (i + run.length) :: tokenizeAux s fuel (i + run.length)
      else if idStart ch then
        let run := ch :: (s.drop (i + 1)).takeWhile idPart
        let word := run.asString
        if KEYWORDS.contains word then
          Tok.Keyword word i (i + run.length) :: tokenizeAux s fuel (i + run.length)
        else
          Tok.Ident word i (i + run.length) :: tokenizeAux s fuel (i + run.length)
      else
        Tok.Unknown (String.mk [ch]) i (i + 1) :: tokenizeAux s fuel (i + 1)

/-- Greedy tokenizer entry point (`src/unnamed/part_001`). -/
def tokenize (s : List Char) : List Tok :=
  tokenizeAux s (s.length + 1) 0

end Greedy

/-! ### Lint engine (`src/src/lint/engine.ts`) -/

/-- Tokens the engine skips for adjacency and grammar purposes
(engine.ts line 18). -/
def isIgnorable (t : Tok) : Bool :=
  match t with
  | .WS _ _ _ | .Comment _ _ _ => true
  | _ => false

/-- Operand-like tokens (engine.ts lines 21-22). -/
def isOperandLike (t : Option Tok) : Bool :=
  match t with
  | some (.Ident _ _ _) | some (.Number _ _ _) | some (.ParenClose _ _) => true
  | _ => false

/-- Build a diagnostic the way `push` does (engine.ts lines 13-15):
severity is always `"error"`. -/
def mkDiag (f t : Nat) (message code : String) : Diagnostic :=
  ⟨f, t, message, "error", code⟩

/-- True exactly for `WS` tokens (the `tok.type !== "WS"` test of line 105). -/
def isWSTok (t : Tok) : Bool :=
  match t with
  | .WS _ _ _ => true
  | _ => false

/-- True exactly for `Period` tokens. -/
def isPeriodTok (t : Tok) : Bool :=
  match t with
  | .Period _ _ => true
  | _ => false

/-- True exactly for `Comment` tokens. -/
def isCommentTok (t : Tok) : Bool :=
  match t with
  | .Comment _ _ _ => true
  | _ => false

/-- State threaded through the pass-1 loop of engine.ts lines 44-107:
accumulated diagnostics, the open-paren stack (top first), `lastNonWsTok`,
and `stmtHasContent`. -/
structure P1State where
  diags : List Diagnostic
  parenStack : List Nat
  lastNonWs : Option Tok
  stmtHasContent : Bool
  deriving Repr

/-- Unknown-character diagnostic of the current token (engine.ts lines 48-50). -/
def dUnknownOf (tok : Tok) : List Diagnostic :=
  match tok with
  | .Unknown _ f t => [mkDiag f t "Unknown character" "syntax/unknown-char"]
  | _ => []

/-- Paren-balance handling of the current token (engine.ts lines 53-61):
the diagnostics it emits and the updated open-paren stack. -/
def parenResOf (stack : List Nat) (tok : Tok) : List Diagnostic × List Nat :=
  match tok with
  | .ParenOpen f _ => ([], f :: stack)
  | .ParenClose f t =>
      match stack with
      | [] => ([mkDiag f t "Unmatched closing parenthesis"
                  "syntax/unmatched-close-paren"], [])
      | _ :: tl => ([], tl)
  | _ => ([], stack)

/-- Redundant-period diagnostic of the current token (engine.ts lines 63-67). -/
def dPeriodOf (lastNonWs : Option Tok) (tok : Tok) : List Diagnostic :=
  match tok with
  | .Period f t =>
      match lastNonWs with
      | some (.Period _ _) => [mkDiag f t "Redundant period" "syntax/redundant-period"]
      | _ => []
  | _ => []

/-- Operator operand-adjacency diagnostics of the current token (engine.ts
lines 76-102); `done` is the already-scanned prefix in reverse, `rest` the
tokens after the current one. -/
def dOpOf (done : List Tok) (tok : Tok) (rest : List Tok) : List Diagnostic :=
  match tok with
  | .Op op f t =>
      let prev := done.find? (fun x => !isIgnorable x)
      let next := rest.find? (fun x => !isIgnorable x)
      let prevIsOperand := isOperandLike prev
      let nextIsOperand := isOperandLike next
      if op = "-" then
        if !prevIsOperand then
          if !nextIsOperand then
            [mkDiag f t "Unary minus must be followed by an operand"
               "syntax/op-missing-operand"]
          else []
        else
          if !nextIsOperand then
            [mkDiag f t "Operator not followed by an operand"
               "syntax/op-missing-operand"]
          else []
      else
        if !prevIsOperand || !nextIsOperand then
          [mkDiag f t "Operator not followed by an operand"
             "syntax/op-missing-operand"]
        else []
  | _ => []

/-- One iteration of the pass-1 loop body (engine.ts lines 44-107) applied to
the current token. -/
def pass1Step (done : List Tok) (tok : Tok) (rest : List Tok) (st : P1State) : P1State :=
  ⟨st.diags ++ dUnknownOf tok ++ (parenResOf st.parenStack tok).1 ++
     dPeriodOf st.lastNonWs tok ++ dOpOf done tok rest,
   (parenResOf st.parenStack tok).2,
   if isWSTok tok then st.lastNonWs else some tok,
   match tok with
   | .Period _ _ => false
   | _ => if isIgnorable tok then st.stmtHasContent else true⟩

/-- Pass 1 of the engine (lines 44-107), processing `rest` left to right;
`done` holds the already-processed tokens in reverse, so
`done.find? (fun t => !isIgnorable t)` is `prevNonIgnorable(tokens, idx-1)`
and `rest.find? (fun t => !isIgnorable t)` is `nextNonIgnorable(tokens, idx+1)`. -/
def pass1 : List Tok → List Tok → P1State → P1State
  | _, [], st => st
  | done, tok :: rest, st => pass1 (tok :: done) rest (pass1Step done tok rest st)

/-- Drain the open-paren stack at end of input (engine.ts lines 110-113),
most recently opened first. -/
def popAll : List Nat → List Diagnostic
  | [] => []
  | pos :: rest =>
      mkDiag pos (pos + 1) "Unmatched opening parenthesis"
        "syntax/unmatched-open-paren" :: popAll rest

/-- Missing trailing period check (engine.ts lines 116-119). -/
def missingPeriodDiag (st : P1State) : List Diagnostic :=
  match st.lastNonWs with
  | some tk =>
      if st.stmtHasContent ∧ ¬isPeriodTok tk then
        [mkDiag (tk.tto - 1) tk.tto "Missing period at end of statement"
           "syntax/missing-period"]
      else []
  | none => []

/-- Segment the token list at `Period` tokens (engine.ts lines 124-132):
one segment per gap between periods, the periods themselves excluded,
including empty segments and the trailing segment. -/
def splitOnPeriod : List Tok → List (List Tok)
  | [] => [[]]
  | t :: rest =>
      if isPeriodTok t then [] :: splitOnPeriod rest
      else
        match splitOnPeriod rest with
        | seg :: segs => (t :: seg) :: segs
        | [] => [[t]]

/-- Indices of the tokens that are the keyword `יהא` within a statement
(engine.ts lines 156-158). -/
def yeheIndices (stmt : List Tok) : List Nat :=
  (List.range stmt.length).filter fun i =>
    match stmt.get? i with
    | some (.Keyword v _ _) => v == "יהא"
    | _ => false

/-- Per-statement validation of engine.ts lines 152-216, applied to the
statement's non-ignorable tokens. The `[]` case corresponds to the
`stmt[0].from` access of line 176, which in JavaScript would throw a
`TypeError` on an empty statement; every caller guards against it
(line 149's `s === -1` check), which claim C9 makes precise. -/
def checkStmt : List Tok → Except String (List Diagnostic)
  | [] => .error "TypeError: cannot read properties of undefined"
  | t0 :: rest =>
      let stmt := t0 :: rest
      let lastTok := List.getLastD stmt t0
      match yeheIndices stmt with
      | _ :: secondIdx :: _ =>
          -- merged statements without a period (lines 159-167)
          let prevTok := (stmt.get? (secondIdx - 1)).getD t0
          let f := prevTok.tto
          let t := Nat.min (f + 1) prevTok.tto
          .ok [mkDiag f t "Missing period between statements"
                 "syntax/missing-period-between-statements"]
      | _ =>
          -- 1) expect the keyword יהא (lines 173-179)
          match t0 with
          | .Keyword v0 _ _ =>
              if v0 = "יהא" then
                -- 2) expect Ident (lines 183-189)
                match rest with
                | [] =>
                    .ok [mkDiag t0.tfrom t0.tto "Expected identifier after 'יהא'"
                           "syntax/var-assign-expected-ident"]
                | t1 :: rest2 =>
                    match t1 with
                    | .Ident _ _ _ =>
                        -- 3) expect the keyword שוה (lines 192-197)
                        match rest2 with
                        | [] =>
                            .ok [mkDiag t1.tfrom t1.tto
                                   "Expected keyword 'שוה' after identifier"
                                   "syntax/var-assign-expected-shaveh"]
                        | t2 :: rest3 =>
                            let okShaveh : Bool :=
                              match t2 with
                              | .Keyword v2 _ _ => v2 == "שוה"
                              | _ => false
                            if okShaveh then
                              -- 4) expect Number (lines 201-207)
                              match rest3 with
                              | [] =>
                                  .ok [mkDiag t2.tfrom t2.tto "Expected number after 'שוה'"
                                         "syntax/var-assign-expected-number"]
                              | t3 :: rest4 =>
                                  match t3 with
                                  | .Number _ _ _ =>
                                      -- 5) no extra tokens (lines 210-215)
                                      match rest4 with
                                      | [] => .ok []
                                      | t4 :: _ =>
                                          .ok [mkDiag t4.tfrom lastTok.tto
                                                 "Unexpected extra tokens after assignment"
                                                 "syntax/statement-extra-tokens"]
                                  | _ =>
                                      .ok [mkDiag t3.tfrom t3.tto
                                             "Expected number after 'שוה'"
                                             "syntax/var-assign-expected-number"]
                            else
                              .ok [mkDiag t2.tfrom t2.tto
                                     "Expected keyword 'שוה' after identifier"
                                     "syntax/var-assign-expected-shaveh"]
                    | _ =>
                        .ok [mkDiag t1.tfrom t1.tto "Expected identifier after 'יהא'"
                               "syntax/var-assign-expected-ident"]
              else
                .ok [mkDiag t0.tfrom lastTok.tto "Invalid statement"
                       "syntax/invalid-statement"]
          | _ =>
              .ok [mkDiag t0.tfrom lastTok.tto "Invalid statement"
                     "syntax/invalid-statement"]

/-- Pass-2 handling of one period-delimited segment (engine.ts lines
144-153): statements whose non-ignorable token list is empty are skipped (the
`s === -1` test of line 149); otherwise the gather loop of line 153 collects
exactly the non-ignorable tokens of the segment, which are validated. -/
def segCheck (seg : List Tok) : Except String (List Diagnostic) :=
  let stmt := seg.filter fun t => !isIgnorable t
  if stmt.isEmpty then pure [] else checkStmt stmt

/-- Full engine over a token list (`lintText` of engine.ts after the token
buffer is materialized, lines 25-218): pass 1, the end-of-input checks, then
pass 2 over the period-delimited statements. -/
def lintTokens (tokens : List Tok) : Except String (List Diagnostic) := do
  let st := pass1 [] tokens ⟨[], [], none, false⟩
  let d2 := popAll st.parenStack
  let d3 := missingPeriodDiag st
  let segDs ← (splitOnPeriod tokens).mapM segCheck
  pure (st.diags ++ d2 ++ d3 ++ segDs.flatten)

/-- The engine as wired in the repository: `lintText` of engine.ts applied to
the tokenizer it imports (`src/src/lang/tokenizer.ts`). -/
def lintText (s : String) : Except String (List Diagnostic) :=
  lintTokens (tokenize s.data)

/-- The same engine applied to the repository's greedy tokenizer
(`src/unnamed/part_001`), the tokenizer semantics the spec declares intended. -/
def lintTextG (s : String) : Except String (List Diagnostic) :=
  lintTokens (Greedy.tokenize s.data)

/-! ### Position mapping (`src/src/lint/sourceText.ts`) -/

/-- Offsets just after each newline character, scanning from offset `i`
(the loop body of `computeLineStarts`, lines 34-42). -/
def lineStartsAux : Nat → List Char → List Nat
  | _, [] => []
  | i, c :: cs =>
      if c = '\n' then (i + 1) :: lineStartsAux (i + 1) cs
      else lineStartsAux (i + 1) cs

/-- Line-start offsets: 0 plus the offset after every `\n`
(`computeLineStarts`). -/
def lineStarts (s : List Char) : List Nat :=
  0 :: lineStartsAux 0 s

/-- Clamp to `[0, length]` (`clamp`, lines 17-21) for a non-negative offset. -/
def clampN (s : List Char) (pos : Nat) : Nat :=
  min pos s.length

/-- Binary-search loop of `positionAt` (lines 58-65), fuel-indexed: returns
`{line, column}` with `column = 0` on an exact hit, else falls through to
`line = max(0, low - 1)`, `column = pos - starts[line]`. The fuel-exhausted
case repeats the fall-through; the fuel used by `positionAt` is provably
sufficient, so it is never taken. -/
def searchLoop (starts : List Nat) (pos : Nat) : Nat → Int → Int → Nat × Int
  | 0, low, _ =>
      ((max 0 (low - 1)).toNat,
        (pos : Int) - (starts.getD (max 0 (low - 1)).toNat 0 : Int))
  | fuel + 1, low, high =>
      if low ≤ high then
        if starts.getD ((low + high) / 2).toNat 0 = pos then
          (((low + high) / 2).toNat, 0)
        else if starts.getD ((low + high) / 2).toNat 0 < pos then
          searchLoop starts pos fuel ((low + high) / 2 + 1) high
        else
          searchLoop starts pos fuel low ((low + high) / 2 - 1)
      else
        ((max 0 (low - 1)).toNat,
          (pos : Int) - (starts.getD (max 0 (low - 1)).toNat 0 : Int))

/-- Offset to 0-based `{line, column}` (`positionAt`, lines 54-69),
for a non-negative offset. -/
def positionAt (s : List Char) (offset : Nat) : Nat × Int :=
  let pos := clampN s offset
  let starts := lineStarts s
  searchLoop starts pos (starts.length + 1) 0 ((starts.length : Int) - 1)

/-- 0-based `{line, column}` to offset (`offsetAt`, lines 72-76); the line is
clamped to the valid line range (`ln`) and the column floored at 0, as in the
source, then `starts[ln] + column` is clamped to the text range. -/
def offsetAt (s : List Char) (line column : Int) : Nat :=
  clampN s
    (((lineStarts s).getD
        (max 0 (min line (((lineStarts s).length : Int) - 1))).toNat 0 : Int)
      + max 0 column).toNat

/-! ### Specification-side reference definitions -/

/-- Predicate for the two parenthesis diagnostic codes. -/
def isParenDiag (d : Diagnostic) : Bool :=
  d.code == "syntax/unmatched-open-paren" || d.code == "syntax/unmatched-close-paren"

/-- Paren-balance scan as the spec words it (spec §4.2), independent of the
engine's interleaved pass-1 bookkeeping: a stack of open-paren positions;
each `ParenClose` pops one if available, else yields `unmatched-close-paren`
at its position; after the scan the still-open positions yield
`unmatched-open-paren` in LIFO (most recently opened first) order, each at
its single-character position. -/
def parenScanSpec : List Tok → List Nat → List Diagnostic
  | [], stack =>
      stack.map fun p =>
        mkDiag p (p + 1) "Unmatched opening parenthesis" "syntax/unmatched-open-paren"
  | t :: rest, stack =>
      match t with
      | .ParenOpen f _ => parenScanSpec rest (f :: stack)
      | .ParenClose f tt =>
          match stack with
          | [] =>
              mkDiag f tt "Unmatched closing parenthesis" "syntax/unmatched-close-paren"
                :: parenScanSpec rest []
          | _ :: tl => parenScanSpec rest tl
      | _ => parenScanSpec rest stack

/-- True exactly for the `Keyword` token with value `יהא` (the leading-token
test of engine.ts line 174). -/
def isYeheTok (t : Tok) : Bool :=
  match t with
  | .Keyword v _ _ => v == "יהא"
  | _ => false

/-!
## Theorems
-/

/-- C1: the tokenizer wired into the engine (`src/src/lang/tokenizer.ts`)
violates the claimed left-to-right order and in-order losslessness: on
`"א /*ב*/"` it yields the comment token first, so the token ranges are not in
left-to-right order and concatenating the source slices in yield order gives
`"/*ב*/א "`, not the input. The repository's greedy tokenizer
(`src/unnamed/part_001`) yields the same tokens in left-to-right lossless
order, as the spec states. -/
theorem tokenize_comment_out_of_order :
    tokenize "א /*ב*/".data =
      [Tok.Comment "/*ב*/" 2 7, Tok.Ident "א" 0 1, Tok.WS " " 1 2] ∧
    ((tokenize "א /*ב*/".data).map fun tk =>
        sliceStr "א /*ב*/".data tk.tfrom tk.tto).foldl (· ++ ·) "" = "/*ב*/א " ∧
    "/*ב*/א " ≠ "א /*ב*/" ∧
    Greedy.tokenize "א /*ב*/".data =
      [Tok.Ident "א" 0 1, Tok.WS " " 1 2, Tok.Comment "/*ב*/" 2 7] :=
  ⟨rfl, rfl, by decide, rfl⟩

/-- C2 counterexample: on `"אם."` the leading token is the keyword `אם`, which
has no grammar entry, yet the engine emits `syntax/invalid-statement` (its
only statement-shape is hardcoded to `יהא`), not `syntax/unknown-statement` as
the claim states; the full diagnostic list contains no
`syntax/unknown-statement` code. -/
theorem keyword_statement_invalid_not_unknown :
    lintText "אם." =
      Except.ok [mkDiag 0 2 "Invalid statement" "syntax/invalid-statement"] ∧
    ((lintText "אם.").toOption.getD []).countP
        (fun d => d.code == "syntax/unknown-statement") = 0 :=
  ⟨rfl, by decide⟩

/-- C3: on the input `"/* never closes"` the tokenizer wired into the engine
does not produce a single Comment token: its comment pre-scan never records an
interval for an unterminated comment, so the text is lexed as two operators and
eleven `Unknown` letters, and lint emits eleven `syntax/unknown-char`
diagnostics. The repository's greedy tokenizer behaves as the claim states,
yielding one Comment token spanning to end-of-input. -/
theorem unterminated_comment_behavior :
    Greedy.tokenize "/* never closes".data =
      [Tok.Comment "/* never closes" 0 15] ∧
    tokenize "/* never closes".data =
      [Tok.Op "/" 0 1, Tok.Op "*" 1 2, Tok.WS " " 2 3,
       Tok.Unknown "n" 3 4, Tok.Unknown "e" 4 5, Tok.Unknown "v" 5 6,
       Tok.Unknown "e" 6 7, Tok.Unknown "r" 7 8, Tok.WS " " 8 9,
       Tok.Unknown "c" 9 10, Tok.Unknown "l" 10 11, Tok.Unknown "o" 11 12,
       Tok.Unknown "s" 12 13, Tok.Unknown "e" 13 14, Tok.Unknown "s" 14 15] ∧
    ((lintText "/* never closes").toOption.getD []).countP
        (fun d => d.code == "syntax/unknown-char") = 11 :=
  ⟨rfl, rfl, by decide⟩

/-- C4 counterexample: on `"יהא x שוה ."` the engine as wired returns two
diagnostics, not exactly one as the claim states. -/
theorem scenarioB_not_one_diag :
    ((lintText "יהא x שוה .").toOption.getD []).length = 2 := by decide

/-- C4 (amended): on `"יהא x שוה ."` the engine as wired returns two
diagnostics (`syntax/unknown-char` and `syntax/var-assign-expected-ident`,
both at the Latin `x`, offsets 4-5, because the wired tokenizer's identifier
class omits Latin letters); with the repository's greedy tokenizer the result
is exactly one diagnostic, but its code is `syntax/var-assign-expected-number`
and it is anchored at the `שוה` keyword token (offsets 6-9), not at the
period. -/
theorem scenarioB_eval :
    lintText "יהא x שוה ." =
      Except.ok
        [mkDiag 4 5 "Unknown character" "syntax/unknown-char",
         mkDiag 4 5 "Expected identifier after 'יהא'"
           "syntax/var-assign-expected-ident"] ∧
    lintTextG "יהא x שוה ." =
      Except.ok
        [mkDiag 6 9 "Expected number after 'שוה'"
           "syntax/var-assign-expected-number"] :=
  ⟨rfl, rfl⟩

/-- C5: on `"יהא x שוה 5."` the engine as wired returns two diagnostics (the
Latin `x` lexes as `Unknown` because the wired tokenizer's identifier class
`[֐-׿_]` omits Latin letters), while the same engine over the
repository's greedy tokenizer (identifier class includes `A-Za-z`) returns
zero diagnostics, as the claim and spec state. -/
theorem scenarioA_eval :
    lintText "יהא x שוה 5." =
      Except.ok
        [mkDiag 4 5 "Unknown character" "syntax/unknown-char",
         mkDiag 4 5 "Expected identifier after 'יהא'"
           "syntax/var-assign-expected-ident"] ∧
    lintTextG "יהא x שוה 5." = Except.ok [] :=
  ⟨rfl, rfl⟩

/-- C6 counterexample: on `"5 + ."` the engine returns two diagnostics, not
exactly one as the claim states. -/
theorem scenarioE_not_one_diag :
    ((lintText "5 + .").toOption.getD []).length = 2 := by decide

/-- C6 (amended): on `"5 + ."` the engine returns exactly two diagnostics:
`syntax/op-missing-operand` at the `+` token's one-character range (2-3) as
the claim states, plus `syntax/invalid-statement` spanning the statement
(0-3), because pass 2 also flags the statement for not starting with the
keyword `יהא`. -/
theorem scenarioE_eval :
    lintText "5 + ." =
      Except.ok
        [mkDiag 2 3 "Operator not followed by an operand"
           "syntax/op-missing-operand",
         mkDiag 0 3 "Invalid statement" "syntax/invalid-statement"] :=
  rfl

/-- C7 counterexample: on `"(1 + 2"` the engine returns three diagnostics, not
exactly one as the claim states. -/
theorem scenarioC_not_one_diag :
    ((lintText "(1 + 2").toOption.getD []).length = 3 := by decide

/-- C2 (amended): for every non-empty statement with at most one occurrence
of the keyword `יהא`, if the leading token is not the Keyword `יהא` — whether
a non-Keyword or any other Keyword — the engine's statement check emits
exactly `syntax/invalid-statement` spanning the whole statement; it never
emits `syntax/unknown-statement` (the engine has no statement-shape table). -/
theorem checkStmt_nonYehe_invalid (t0 : Tok) (rest : List Tok)
    (hcount : (yeheIndices (t0 :: rest)).length ≤ 1)
    (hhead : isYeheTok t0 = false) :
    checkStmt (t0 :: rest) =
      Except.ok [mkDiag t0.tfrom ((t0 :: rest).getLastD t0).tto
        "Invalid statement" "syntax/invalid-statement"] := by
  unfold checkStmt
  cases hy : yeheIndices (t0 :: rest) with
  | cons a l =>
    cases l with
    | cons b l2 => rw [hy] at hcount; simp at hcount
    | nil =>
      simp only [hy]
      cases t0 with
      | Keyword v f t =>
        simp only [isYeheTok, beq_eq_false_iff_ne, ne_eq] at hhead
        simp [hhead]
      | _ => rfl
  | nil =>
    simp only [hy]
    cases t0 with
    | Keyword v f t =>
      simp only [isYeheTok, beq_eq_false_iff_ne, ne_eq] at hhead
      simp [hhead]
    | _ => rfl

/-- Witness for the C2 theorem: a statement whose single token is a number. -/
theorem checkStmt_nonYehe_invalid_witness :
    (yeheIndices [Tok.Number "5" 0 1]).length ≤ 1 ∧
    isYeheTok (Tok.Number "5" 0 1) = false ∧
    checkStmt [Tok.Number "5" 0 1] =
      Except.ok [mkDiag 0 1 "Invalid statement" "syntax/invalid-statement"] :=
  ⟨by decide, by decide,
    checkStmt_nonYehe_invalid (Tok.Number "5" 0 1) [] (by decide) (by decide)⟩

/-- Every non-empty statement check succeeds: each branch of the validator
other than the empty-statement `TypeError` case returns `Except.ok`. -/
theorem checkStmt_isOk (t0 : Tok) (rest : List Tok) :
    ∃ ds, checkStmt (t0 :: rest) = Except.ok ds := by
  simp only [checkStmt]
  repeat first
  | exact ⟨_, rfl⟩
  | split

/-- Every segment check succeeds: empty statements are skipped before the
validator runs (the `s === -1` guard of engine.ts line 149). -/
theorem segCheck_isOk (seg : List Tok) : ∃ ds, segCheck seg = Except.ok ds := by
  unfold segCheck
  cases h : seg.filter fun t => !isIgnorable t with
  | nil => exact ⟨[], rfl⟩
  | cons t0 r =>
    simp only [List.isEmpty_cons, if_neg]
    exact checkStmt_isOk t0 r

/-- Mapping the segment check over any segment list succeeds. -/
theorem segs_mapM_ok (segs : List (List Tok)) :
    ∃ out, segs.mapM segCheck = Except.ok out := by
  induction segs with
  | nil => exact ⟨[], rfl⟩
  | cons seg segs ih =>
    obtain ⟨out, hout⟩ := ih
    obtain ⟨ds, hds⟩ := segCheck_isOk seg
    refine ⟨ds :: out, ?_⟩
    rw [List.mapM_cons, hds, hout]
    rfl

/-- Shape of every engine run: the pass-1 diagnostics, the drained paren
stack, the trailing-period check, then the flattened pass-2 output. -/
theorem lintTokens_eq (tokens : List Tok) :
    ∃ out, (splitOnPeriod tokens).mapM segCheck = Except.ok out ∧
      lintTokens tokens = Except.ok
        ((pass1 [] tokens ⟨[], [], none, false⟩).diags ++
          popAll (pass1 [] tokens ⟨[], [], none, false⟩).parenStack ++
          missingPeriodDiag (pass1 [] tokens ⟨[], [], none, false⟩) ++
          out.flatten) := by
  obtain ⟨out, hout⟩ := segs_mapM_ok (splitOnPeriod tokens)
  refine ⟨out, hout, ?_⟩
  unfold lintTokens
  rw [hout]
  rfl

/-- C9: the engine is total — for every input string, including arbitrarily
malformed source text, `lintText` returns a diagnostic list and never reaches
the modelled exception branch (the `TypeError` of reading a field of an
undefined statement token). -/
theorem lintText_total (s : String) : ∃ ds, lintText s = Except.ok ds := by
  obtain ⟨out, _, h⟩ := lintTokens_eq (tokenize s.data)
  exact ⟨_, h⟩

/-- Elements of the auxiliary line-start list all exceed the scan offset. -/
theorem lineStartsAux_gt (cs : List Char) :
    ∀ i, ∀ x ∈ lineStartsAux i cs, i < x := by
  induction cs with
  | nil => intro i x hx; simp [lineStartsAux] at hx
  | cons c cs ih =>
    intro i x hx
    simp only [lineStartsAux] at hx
    by_cases h : c = '\n'
    · rw [if_pos h] at hx
      rcases List.mem_cons.1 hx with rfl | hx'
      · omega
      · have := ih (i + 1) x hx'; omega
    · rw [if_neg h] at hx
      have := ih (i + 1) x hx; omega

/-- The auxiliary line-start list is strictly increasing. -/
theorem lineStartsAux_pairwise (cs : List Char) :
    ∀ i, (lineStartsAux i cs).Pairwise (· < ·) := by
  induction cs with
  | nil => intro i; simp [lineStartsAux]
  | cons c cs ih =>
    intro i
    simp only [lineStartsAux]
    by_cases h : c = '\n'
    · rw [if_pos h]
      exact List.Pairwise.cons
        (fun x hx => by have := lineStartsAux_gt cs (i + 1) x hx; omega)
        (ih (i + 1))
    · rw [if_neg h]; exact ih (i + 1)

/-- The line-start table is strictly increasing. -/
theorem lineStarts_pairwise (s : List Char) :
    (lineStarts s).Pairwise (· < ·) := by
  unfold lineStarts
  exact List.Pairwise.cons
    (fun x hx => by have := lineStartsAux_gt s 0 x hx; omega)
    (lineStartsAux_pairwise s 0)

/-- Strictly increasing lists have strictly monotone `getD` on valid indices. -/
theorem getD_lt_getD {l : List Nat} (hp : l.Pairwise (· < ·)) {a b : Nat}
    (hab : a < b) (hb : b < l.length) : l.getD a 0 < l.getD b 0 := by
  have ha : a < l.length := lt_trans hab hb
  rw [List.getD_eq_getElem _ _ ha, List.getD_eq_getElem _ _ hb]
  exact List.pairwise_iff_getElem.1 hp a b ha hb hab

/-- Invariant of the binary-search loop of `positionAt`: given a strictly
increasing non-empty table whose first entry is at most `pos`, and the
standard bracketing invariants on `low`/`high`, the loop returns a valid line
index whose start is at most `pos`, together with the non-negative column
making up the difference. -/
theorem searchLoop_spec (starts : List Nat) (pos : Nat)
    (hp : starts.Pairwise (· < ·)) (hlen : 0 < starts.length)
    (h0 : starts.getD 0 0 ≤ pos) :
    ∀ (fuel : Nat) (low high : Int),
      0 ≤ low → low ≤ high + 1 → high ≤ (starts.length : Int) - 1 →
      (∀ k : Nat, (k : Int) < low → starts.getD k 0 < pos) →
      (∀ k : Nat, k < starts.length → high < (k : Int) → pos < starts.getD k 0) →
      (high + 1 - low).toNat < fuel →
      (searchLoop starts pos fuel low high).1 < starts.length ∧
      ((starts.getD (searchLoop starts pos fuel low high).1 0 : Int) +
        (searchLoop starts pos fuel low high).2 = (pos : Int)) ∧
      0 ≤ (searchLoop starts pos fuel low high).2 := by
  intro fuel
  induction fuel with
  | zero => intro low high _ hlh _ _ _ hf; omega
  | succ n ih =>
    intro low high hlow hlh hhigh inv1 inv2 hf
    by_cases hle : low ≤ high
    · have hml : low ≤ (low + high) / 2 := by omega
      have hmh : (low + high) / 2 ≤ high := by omega
      have hmidlen : ((low + high) / 2).toNat < starts.length := by omega
      rw [searchLoop, if_pos hle]
      by_cases heq : starts.getD ((low + high) / 2).toNat 0 = pos
      · rw [if_pos heq]
        refine ⟨hmidlen, ?_, le_refl 0⟩
        show (starts.getD ((low + high) / 2).toNat 0 : Int) + 0 = (pos : Int)
        omega
      · rw [if_neg heq]
        by_cases hlt : starts.getD ((low + high) / 2).toNat 0 < pos
        · rw [if_pos hlt]
          refine ih ((low + high) / 2 + 1) high (by omega) (by omega) hhigh
            ?_ inv2 (by omega)
          intro k hk
          rcases lt_or_ge (k : Int) low with hkl | hkl
          · exact inv1 k hkl
          · rcases Nat.lt_or_ge k ((low + high) / 2).toNat with hkm | hkm
            · exact lt_trans (getD_lt_getD hp hkm hmidlen) hlt
            · have : k = ((low + high) / 2).toNat := by omega
              rw [this]; exact hlt
        · rw [if_neg hlt]
          refine ih low ((low + high) / 2 - 1) hlow (by omega) (by omega)
            inv1 ?_ (by omega)
          intro k hk hk2
          rcases Nat.lt_or_ge ((low + high) / 2).toNat k with hkm | hkm
          · exact lt_of_le_of_lt (by omega) (getD_lt_getD hp hkm hk)
          · have : k = ((low + high) / 2).toNat := by omega
            rw [this]; omega
    · rw [searchLoop, if_neg hle]
      have hlow1 : 1 ≤ low := by
        by_contra hc
        have hl0 : low = 0 := by omega
        have := inv2 0 hlen (by omega)
        omega
      have hlinelen : (max 0 (low - 1)).toNat < starts.length := by omega
      have hlt := inv1 (max 0 (low - 1)).toNat (by omega)
      refine ⟨hlinelen, ?_, ?_⟩
      · show (starts.getD (max 0 (low - 1)).toNat 0 : Int) +
          ((pos : Int) - (starts.getD (max 0 (low - 1)).toNat 0 : Int)) = (pos : Int)
        omega
      · show (0 : Int) ≤ (pos : Int) - (starts.getD (max 0 (low - 1)).toNat 0 : Int)
        omega

/-- Unfolded contract of `positionAt` for an in-range offset. -/
theorem positionAt_spec (s : List Char) (o : Nat) (h : o ≤ s.length) :
    (positionAt s o).1 < (lineStarts s).length ∧
    (((lineStarts s).getD (positionAt s o).1 0 : Int) + (positionAt s o).2 = (o : Int)) ∧
    0 ≤ (positionAt s o).2 := by
  have hpos : clampN s o = o := min_eq_left h
  have hlen : 0 < (lineStarts s).length := by simp [lineStarts]
  have h0 : (lineStarts s).getD 0 0 ≤ o := by simp [lineStarts]
  unfold positionAt
  rw [hpos]
  exact searchLoop_spec (lineStarts s) o (lineStarts_pairwise s) hlen h0
    ((lineStarts s).length + 1) 0 ((lineStarts s).length - 1)
    (by omega) (by omega) (by omega)
    (fun k hk => by omega)
    (fun k hk hk2 => by omega)
    (by omega)

/-- C10: `positionAt` followed by `offsetAt` is the identity on every offset
`o` with `0 ≤ o ≤ length` of the source text. -/
theorem positionAt_offsetAt_roundtrip (s : List Char) (o : Nat) (h : o ≤ s.length) :
    offsetAt s ((positionAt s o).1 : Int) (positionAt s o).2 = o := by
  obtain ⟨h1, h2, h3⟩ := positionAt_spec s o h
  unfold offsetAt
  have hln : (max 0 (min ((positionAt s o).1 : Int)
      (((lineStarts s).length : Int) - 1))).toNat = (positionAt s o).1 := by omega
  rw [hln, max_eq_right h3]
  unfold clampN
  omega

/-- Witness for the C10 theorem at a concrete text and offset. -/
theorem positionAt_offsetAt_roundtrip_witness :
    3 ≤ "ab\ncd".data.length ∧
    offsetAt "ab\ncd".data ((positionAt "ab\ncd".data 3).1 : Int)
      (positionAt "ab\ncd".data 3).2 = 3 :=
  ⟨by decide, positionAt_offsetAt_roundtrip "ab\ncd".data 3 (by decide)⟩

/-- Draining the stack emits one open-paren diagnostic per entry, in order. -/
theorem popAll_eq_map (stack : List Nat) :
    popAll stack = stack.map fun p =>
      mkDiag p (p + 1) "Unmatched opening parenthesis" "syntax/unmatched-open-paren" := by
  induction stack with
  | nil => rfl
  | cons p rest ih => simp [popAll, ih]

/-- Every diagnostic emitted by the stack drain carries a paren code. -/
theorem filter_popAll (stack : List Nat) :
    (popAll stack).filter isParenDiag = popAll stack := by
  induction stack with
  | nil => rfl
  | cons p rest ih => simp [popAll, List.filter_cons, isParenDiag, mkDiag, ih]

/-- Unknown-character diagnostics carry no paren code. -/
theorem filter_dUnknownOf (tok : Tok) :
    (dUnknownOf tok).filter isParenDiag = [] := by
  cases tok <;> simp [dUnknownOf, List.filter_cons, isParenDiag, mkDiag]

/-- Redundant-period diagnostics carry no paren code. -/
theorem filter_dPeriodOf (lastNonWs : Option Tok) (tok : Tok) :
    (dPeriodOf lastNonWs tok).filter isParenDiag = [] := by
  cases tok with
  | Period f t =>
    cases lastNonWs with
    | none => rfl
    | some tk => cases tk <;> simp [dPeriodOf, List.filter_cons, isParenDiag, mkDiag]
  | _ => rfl

/-- Operator diagnostics carry no paren code. -/
theorem filter_dOpOf (done : List Tok) (tok : Tok) (rest : List Tok) :
    (dOpOf done tok rest).filter isParenDiag = [] := by
  cases tok with
  | Op op f t =>
    simp only [dOpOf]
    split_ifs <;> simp [List.filter_cons, isParenDiag, mkDiag]
  | _ => rfl

/-- The pass-1 loop, followed by the end-of-input stack drain, produces
exactly the specification's paren scan once the other diagnostics are
filtered away. -/
theorem pass1_paren_filter : ∀ (rest done : List Tok) (st : P1State),
    ((pass1 done rest st).diags ++ popAll (pass1 done rest st).parenStack).filter
        isParenDiag =
      st.diags.filter isParenDiag ++ parenScanSpec rest st.parenStack := by
  intro rest
  induction rest with
  | nil =>
    intro done st
    simp only [pass1, parenScanSpec, List.filter_append]
    rw [filter_popAll, popAll_eq_map]
  | cons tok rest ih =>
    intro done st
    rw [pass1, ih]
    show (pass1Step done tok rest st).diags.filter isParenDiag ++
        parenScanSpec rest (pass1Step done tok rest st).parenStack =
      st.diags.filter isParenDiag ++ parenScanSpec (tok :: rest) st.parenStack
    simp only [pass1Step, List.filter_append, filter_dUnknownOf, filter_dPeriodOf,
      filter_dOpOf, List.append_nil]
    cases tok with
    | ParenOpen f t =>
      simp [parenResOf, parenScanSpec]
    | ParenClose f t =>
      cases hs : st.parenStack with
      | nil =>
        simp [parenResOf, parenScanSpec, List.filter_cons, isParenDiag, mkDiag]
      | cons a tl =>
        simp [parenResOf, parenScanSpec]
    | Keyword v f t => simp [parenResOf, parenScanSpec]
    | Ident v f t => simp [parenResOf, parenScanSpec]
    | Number v f t => simp [parenResOf, parenScanSpec]
    | Op v f t => simp [parenResOf, parenScanSpec]
    | Period f t => simp [parenResOf, parenScanSpec]
    | WS v f t => simp [parenResOf, parenScanSpec]
    | Comment v f t => simp [parenResOf, parenScanSpec]
    | Unknown v f t => simp [parenResOf, parenScanSpec]

/-- The per-statement validator never emits a paren code. -/
theorem checkStmt_no_paren (stmt : List Tok) (ds : List Diagnostic)
    (h : checkStmt stmt = Except.ok ds) : ds.filter isParenDiag = [] := by
  cases stmt with
  | nil => simp [checkStmt] at h
  | cons t0 rest =>
    revert h
    simp only [checkStmt]
    repeat first
    | (intro h; injection h with h; subst h;
       simp [List.filter_cons, isParenDiag, mkDiag])
    | split

/-- Segment checks never emit a paren code. -/
theorem segCheck_no_paren (seg : List Tok) (ds : List Diagnostic)
    (h : segCheck seg = Except.ok ds) : ds.filter isParenDiag = [] := by
  unfold segCheck at h
  cases hf : seg.filter fun t => !isIgnorable t with
  | nil =>
    rw [hf] at h
    simp only [List.isEmpty_nil, if_true, reduceIte, pure, Except.pure] at h
    injection h with h; subst h; rfl
  | cons t0 r =>
    rw [hf] at h
    simp only [List.isEmpty_cons, Bool.false_eq_true, if_false, reduceIte] at h
    exact checkStmt_no_paren (t0 :: r) ds h

/-- Pass-2 output in aggregate never contains a paren code. -/
theorem pass2_no_paren (segs : List (List Tok)) (out : List (List Diagnostic))
    (h : segs.mapM segCheck = Except.ok out) :
    out.flatten.filter isParenDiag = [] := by
  induction segs generalizing out with
  | nil =>
    simp only [List.mapM_nil] at h
    injection h with h; subst h; rfl
  | cons seg segs ih =>
    rw [List.mapM_cons] at h
    obtain ⟨ds, hds⟩ := segCheck_isOk seg
    obtain ⟨out2, hout2⟩ := segs_mapM_ok segs
    rw [hds, hout2] at h
    simp only [bind, Except.bind, pure, Except.pure] at h
    injection h with h; subst h
    simp only [List.flatten_cons, List.filter_append]
    rw [segCheck_no_paren seg ds hds, ih out2 hout2]
    rfl

/-- The missing-trailing-period check never emits a paren code. -/
theorem filter_missingPeriodDiag (st : P1State) :
    (missingPeriodDiag st).filter isParenDiag = [] := by
  rcases hl : st.lastNonWs with _ | tk <;> simp only [missingPeriodDiag, hl]
  · rfl
  · split_ifs <;> simp [List.filter_cons, isParenDiag, mkDiag]

/-- C7: the parenthesis diagnostics of every engine run are exactly those of
the spec's stack scan — each `ParenClose` with no open paren available yields
one `unmatched-close-paren` at its position during the scan, and afterwards
each still-open `ParenOpen` yields one `unmatched-open-paren` at its
one-character position in LIFO order — and (amended Scenario C) lint of
`"(1 + 2"` returns exactly three diagnostics, of which the only paren one is
`unmatched-open-paren` at offset 0, the others being `missing-period` and
`invalid-statement`. -/
theorem paren_refinement :
    (∀ (s : String) (ds : List Diagnostic), lintText s = Except.ok ds →
      ds.filter isParenDiag = parenScanSpec (tokenize s.data) []) ∧
    lintText "(1 + 2" = Except.ok
      [mkDiag 0 1 "Unmatched opening parenthesis" "syntax/unmatched-open-paren",
       mkDiag 5 6 "Missing period at end of statement" "syntax/missing-period",
       mkDiag 0 6 "Invalid statement" "syntax/invalid-statement"] := by
  constructor
  · intro s ds hds
    obtain ⟨out, hout, heq⟩ := lintTokens_eq (tokenize s.data)
    rw [lintText] at hds
    rw [heq] at hds
    injection hds with hds
    subst hds
    simp only [List.filter_append]
    rw [pass2_no_paren _ _ hout, filter_missingPeriodDiag]
    have h1 := pass1_paren_filter (tokenize s.data) [] ⟨[], [], none, false⟩
    simp only [List.filter_append] at h1
    simpa using h1
  · rfl

/-- Witness for the C7 theorem at the input `")("`. -/
theorem paren_refinement_witness :
    lintText ")(" = Except.ok
      [mkDiag 0 1 "Unmatched closing parenthesis" "syntax/unmatched-close-paren",
       mkDiag 1 2 "Unmatched opening parenthesis" "syntax/unmatched-open-paren",
       mkDiag 1 2 "Missing period at end of statement" "syntax/missing-period",
       mkDiag 0 2 "Invalid statement" "syntax/invalid-statement"] ∧
    ([mkDiag 0 1 "Unmatched closing parenthesis" "syntax/unmatched-close-paren",
      mkDiag 1 2 "Unmatched opening parenthesis" "syntax/unmatched-open-paren",
      mkDiag 1 2 "Missing period at end of statement" "syntax/missing-period",
      mkDiag 0 2 "Invalid statement" "syntax/invalid-statement"].filter isParenDiag =
      parenScanSpec (tokenize ")(".data) []) :=
  ⟨rfl, paren_refinement.1 ")(" _ rfl⟩

/-- Whitespace tokens are ignorable. -/
theorem isIgnorable_of_ws (a : Tok) (hws : isWSTok a = true) :
    isIgnorable a = true := by
  cases a <;> simp_all [isWSTok, isIgnorable]

/-- Comment tokens are ignorable. -/
theorem isIgnorable_of_comment (a : Tok) (hc : isCommentTok a = true) :
    isIgnorable a = true := by
  cases a <;> simp_all [isCommentTok, isIgnorable]

/-- A token that is neither whitespace nor a comment is not ignorable. -/
theorem isIgnorable_eq_false (a : Tok) (hws : isWSTok a = false)
    (hc : isCommentTok a = false) : isIgnorable a = false := by
  cases a <;> simp_all [isWSTok, isCommentTok, isIgnorable]

/-- The single-token step of the main scan never produces a Comment token. -/
theorem mainStep_not_comment (s : List Char) (i : Nat) (ch : Char) :
    isCommentTok (mainStep s i ch).1 = false := by
  unfold mainStep
  split_ifs <;> try rfl
  by_cases h : (ch :: (s.drop (i + 1)).takeWhile hebrewIdPart).asString ∈ KEYWORDS <;>
    simp [h, isCommentTok]

/-- The main scan never yields Comment tokens: all comments of the wired
tokenizer come from the interval pre-pass. -/
theorem mainScan_not_comment (s : List Char) :
    ∀ (fuel i : Nat) (ivs : List Interval) (t : Tok),
      t ∈ mainScan s fuel i ivs → isCommentTok t = false := by
  intro fuel
  induction fuel with
  | zero => intro i ivs t ht; simp [mainScan] at ht
  | succ n ih =>
    intro i ivs t ht
    cases ivs with
    | nil =>
      rw [mainScan] at ht
      cases hg : s.get? i with
      | none => simp only [hg] at ht; simp at ht
      | some ch =>
        simp only [hg] at ht
        rcases List.mem_cons.1 ht with rfl | ht'
        · exact mainStep_not_comment s i ch
        · exact ih _ _ t ht'
    | cons iv ivrest =>
      rw [mainScan] at ht
      cases hg : s.get? i with
      | none => simp only [hg] at ht; simp at ht
      | some ch =>
        simp only [hg] at ht
        by_cases hskip : iv.ifrom ≤ i
        · rw [if_pos hskip] at ht
          exact ih _ _ t ht
        · rw [if_neg hskip] at ht
          rcases List.mem_cons.1 ht with rfl | ht'
          · exact mainStep_not_comment s i ch
          · exact ih _ _ t ht'

/-- Structure of the wired tokenizer's output: a block of Comment tokens
followed by a block of non-Comment tokens. -/
theorem tokenize_split (s : List Char) :
    ∃ C M, tokenize s = C ++ M ∧ (∀ t ∈ C, isCommentTok t = true) ∧
      (∀ t ∈ M, isCommentTok t = false) := by
  refine ⟨_, _, rfl, ?_, ?_⟩
  · intro t ht
    simp only [List.mem_map] at ht
    obtain ⟨iv, _, rfl⟩ := ht
    rfl
  · intro t ht
    exact mainScan_not_comment s _ _ _ t ht

/-- A list of Comment tokens has no non-ignorable element. -/
theorem find?_nonIgn_comments (y : List Tok) (hy : ∀ t ∈ y, isCommentTok t = true) :
    y.find? (fun tk => !isIgnorable tk) = none := by
  induction y with
  | nil => rfl
  | cons a ys ih =>
    have ha := hy a (List.mem_cons_self a ys)
    have hig : isIgnorable a = true := isIgnorable_of_comment a ha
    rw [List.find?_cons]
    simp only [hig, Bool.not_true]
    exact ih fun t ht => hy t (List.mem_cons_of_mem a ht)

/-- On a list made of a comment-free block followed by a Comment-only block,
a successful search for a non-ignorable token coincides with the engine's
search for a non-whitespace token. -/
theorem find?_nonWs_eq_find?_nonIgn (x : List Tok) :
    ∀ (y : List Tok), (∀ t ∈ x, isCommentTok t = false) →
    (∀ t ∈ y, isCommentTok t = true) → ∀ (p : Tok),
    (x ++ y).find? (fun tk => !isIgnorable tk) = some p →
    (x ++ y).find? (fun tk => !isWSTok tk) = some p := by
  induction x with
  | nil =>
    intro y _ hy p hfind
    rw [List.nil_append, find?_nonIgn_comments y hy] at hfind
    cases hfind
  | cons a x ih =>
    intro y hx hy p hfind
    by_cases hws : isWSTok a = true
    · have hig : isIgnorable a = true := isIgnorable_of_ws a hws
      rw [List.cons_append, List.find?_cons] at hfind ⊢
      simp only [hig, Bool.not_true] at hfind
      simp only [hws, Bool.not_true]
      exact ih y (fun t ht => hx t (List.mem_cons_of_mem a ht)) hy p hfind
    · have hws' : isWSTok a = false := by simpa using hws
      have hig : isIgnorable a = false :=
        isIgnorable_eq_false a hws' (hx a (List.mem_cons_self a x))
      rw [List.cons_append, List.find?_cons] at hfind ⊢
      simp only [hig, Bool.not_false] at hfind
      simp only [hws', Bool.not_false]
      exact hfind

/-- The pass-1 step only appends to the diagnostics list. -/
theorem pass1Step_diags (done : List Tok) (tok : Tok) (rest : List Tok) (st : P1State) :
    ∃ d, (pass1Step done tok rest st).diags = st.diags ++ d := by
  refine ⟨dUnknownOf tok ++ (parenResOf st.parenStack tok).1 ++
    dPeriodOf st.lastNonWs tok ++ dOpOf done tok rest, ?_⟩
  show st.diags ++ dUnknownOf tok ++ (parenResOf st.parenStack tok).1 ++
      dPeriodOf st.lastNonWs tok ++ dOpOf done tok rest = _
  simp [List.append_assoc]

/-- Pass 1 only appends to the diagnostics accumulated so far. -/
theorem pass1_diags_extend : ∀ (rest done : List Tok) (st : P1State),
    ∃ ext, (pass1 done rest st).diags = st.diags ++ ext := by
  intro rest
  induction rest with
  | nil => intro done st; exact ⟨[], (List.append_nil _).symm⟩
  | cons tok rest ih =>
    intro done st
    obtain ⟨d, hd⟩ := pass1Step_diags done tok rest st
    obtain ⟨ext, hext⟩ := ih (tok :: done) (pass1Step done tok rest st)
    refine ⟨d ++ ext, ?_⟩
    rw [pass1, hext, hd, List.append_assoc]

/-- The pass-1 step maintains `lastNonWsTok` as the first non-whitespace
token of the reversed processed prefix. -/
theorem pass1Step_lastNonWs (done : List Tok) (tok : Tok) (rest : List Tok)
    (st : P1State) (hinv : st.lastNonWs = done.find? fun tk => !isWSTok tk) :
    (pass1Step done tok rest st).lastNonWs =
      (tok :: done).find? fun tk => !isWSTok tk := by
  show (if isWSTok tok then st.lastNonWs else some tok) = _
  rw [List.find?_cons]
  by_cases hws : isWSTok tok
  · simp only [hws, Bool.not_true, if_true, reduceIte]
    exact hinv
  · simp only [hws, Bool.not_false, if_false, reduceIte]
    simp [hws]

/-- Whenever the nearest preceding non-whitespace token of a `Period` in the
remaining stream (relative to the processed prefix) is itself a `Period`,
pass 1 emits the redundant-period diagnostic at the second period's range. -/
theorem pass1_redundant : ∀ (rest done : List Tok) (st : P1State),
    st.lastNonWs = (done.find? fun tk => !isWSTok tk) →
    ∀ (j f t pf pt : Nat),
    rest[j]? = some (Tok.Period f t) →
    (((rest.take j).reverse ++ done).find? fun tk => !isWSTok tk) =
      some (Tok.Period pf pt) →
    mkDiag f t "Redundant period" "syntax/redundant-period" ∈
      (pass1 done rest st).diags := by
  intro rest
  induction rest with
  | nil => intro done st hinv j f t pf pt hj hprev; simp at hj
  | cons tok rest ih =>
    intro done st hinv j f t pf pt hj hprev
    cases j with
    | zero =>
      rw [List.getElem?_cons_zero] at hj
      injection hj with hj
      subst hj
      simp only [List.take_zero, List.reverse_nil, List.nil_append] at hprev
      rw [pass1]
      obtain ⟨ext, hext⟩ :=
        pass1_diags_extend rest (Tok.Period f t :: done)
          (pass1Step done (Tok.Period f t) rest st)
      rw [hext]
      have hdp : dPeriodOf st.lastNonWs (Tok.Period f t) =
          [mkDiag f t "Redundant period" "syntax/redundant-period"] := by
        rw [hinv, hprev]; rfl
      have hstep : (pass1Step done (Tok.Period f t) rest st).diags =
          st.diags ++ dUnknownOf (Tok.Period f t) ++
            (parenResOf st.parenStack (Tok.Period f t)).1 ++
            dPeriodOf st.lastNonWs (Tok.Period f t) ++
            dOpOf done (Tok.Period f t) rest := rfl
      rw [hstep, hdp]
      simp [dUnknownOf, dOpOf, parenResOf]
    | succ j =>
      rw [List.getElem?_cons_succ] at hj
      have hprev' : (((rest.take j).reverse ++ (tok :: done)).find?
          fun tk => !isWSTok tk) = some (Tok.Period pf pt) := by
        rw [List.take_succ_cons, List.reverse_cons, List.append_assoc] at hprev
        simpa using hprev
      rw [pass1]
      exact ih (tok :: done) (pass1Step done tok rest st)
        (pass1Step_lastNonWs done tok rest st hinv) j f t pf pt hj hprev'

/-- C8: for every input, a `Period` token whose nearest preceding
non-ignorable token (in the tokenizer's yield order) is also a `Period` —
whether the yield-order gap holds Comment tokens, Whitespace tokens, or
nothing — produces a `syntax/redundant-period` diagnostic at the second
period's own range in the lint output. -/
theorem redundant_period_emitted (s : String) (j f t pf pt : Nat)
    (hj : (tokenize s.data)[j]? = some (Tok.Period f t))
    (hprev : ((((tokenize s.data).take j).reverse).find? fun tk => !isIgnorable tk) =
      some (Tok.Period pf pt)) :
    ∃ ds, lintText s = Except.ok ds ∧
      mkDiag f t "Redundant period" "syntax/redundant-period" ∈ ds := by
  obtain ⟨out, hout, heq⟩ := lintTokens_eq (tokenize s.data)
  refine ⟨_, heq, ?_⟩
  have hmem : mkDiag f t "Redundant period" "syntax/redundant-period" ∈
      (pass1 [] (tokenize s.data) ⟨[], [], none, false⟩).diags := by
    apply pass1_redundant (tokenize s.data) [] ⟨[], [], none, false⟩ rfl j f t pf pt hj
    -- convert the non-ignorable search into the engine's non-whitespace search
    obtain ⟨C, M, hCM, hC, hM⟩ := tokenize_split s.data
    rw [List.append_nil]
    rw [hCM] at hprev ⊢
    rcases le_or_lt j C.length with hle | hlt
    · -- the prefix is all comments: no non-ignorable token can be found
      exfalso
      have htake : (C ++ M).take j = C.take j := by
        rw [List.take_append_eq_append_take]
        have : j - C.length = 0 := by omega
        rw [this, List.take_zero, List.append_nil]
      rw [htake] at hprev
      have hAll : ∀ t' ∈ (C.take j).reverse, isCommentTok t' = true := by
        intro t' ht'
        exact hC t' (List.mem_of_mem_take (List.mem_reverse.1 ht'))
      rw [find?_nonIgn_comments _ hAll] at hprev
      cases hprev
    · -- split the reversed prefix into the main-part block and the comments
      have htake : (C ++ M).take j = C ++ M.take (j - C.length) := by
        rw [List.take_append_eq_append_take, List.take_of_length_le (by omega)]
      rw [htake, List.reverse_append] at hprev ⊢
      apply find?_nonWs_eq_find?_nonIgn
      · intro t' ht'
        exact hM t' (List.mem_of_mem_take (List.mem_reverse.1 ht'))
      · intro t' ht'
        exact hC t' (List.mem_reverse.1 ht')
      · exact hprev
  exact List.mem_append_left _ (List.mem_append_left _ (List.mem_append_left _ hmem))

/-- Witness for the C8 theorem at the input `".."`. -/
theorem redundant_period_emitted_witness :
    ((tokenize "..".data)[1]? = some (Tok.Period 1 2) ∧
      ((((tokenize "..".data).take 1).reverse).find? fun tk => !isIgnorable tk) =
        some (Tok.Period 0 1)) ∧
    ∃ ds, lintText ".." = Except.ok ds ∧
      mkDiag 1 2 "Redundant period" "syntax/redundant-period" ∈ ds :=
  ⟨⟨by decide, by decide⟩,
    redundant_period_emitted ".." 1 1 2 0 1 (by decide) (by decide)⟩

end Mamash
